import Mathlib

/-!
Verification development for the drone-export-jp aggregation and
visualization pipeline (`jp_full_hs10_plot_script.py`, `jp_plot_01_to_02.py`,
`jp_plot_03_to_06.py`).

Python strings are modelled as `List Char`; floating point cell values are
modelled as `Option ℚ`, where `none` stands for IEEE NaN (every comparison
with NaN is `false`, which is exactly how the Python code observes it) and
`some x` is an ordinary (exact) number.
-/

/-! ### Python string primitives -/

/-- Python whitespace test (`str.strip` / `\s`), restricted to the ASCII
whitespace characters that can occur in this pipeline's data. -/
def pyIsSpace (c : Char) : Bool :=
  c == ' ' || c == '\t' || c == '\n' || c == '\r' || c == '\x0b' || c == '\x0c'

/-- Python `str.strip()`: drop leading and trailing whitespace. -/
def pyStrip (l : List Char) : List Char :=
  ((l.dropWhile pyIsSpace).reverse.dropWhile pyIsSpace).reverse

/-- Python `str.replace(a, b)` for single-character `a`, `b`: characterwise map. -/
def replaceChar (a b : Char) (l : List Char) : List Char :=
  l.map (fun c => if c == a then b else c)

/-- Python `str.replace(a, "")` for a single-character `a`: drop every `a`. -/
def dropChar (a : Char) (l : List Char) : List Char :=
  l.filter (fun c => !(c == a))

/-! ### Filename slugging (`jp_plot_03_to_06.py`, `_clean_val_for_filename`) -/

/-- Embedding of `_clean_val_for_filename` (jp_plot_03_to_06.py lines 85-90):
strip, replace each of space, `/`, `:` by `_`, remove dots, remove the
forbidden filesystem characters, and fall back to `"Unknown"` when empty. -/
def _clean_val_for_filename (v : List Char) : List Char :=
  let s0 := pyStrip v
  let s1 := replaceChar ' ' '_' s0
  let s2 := replaceChar '/' '_' s1
  let s3 := replaceChar ':' '_' s2
  let s4 := dropChar '.' s3
  let s5 := s4.filter (fun c => !(c ∈ ['<', '>', '"', '|', '?', '*']))
  if s5.isEmpty then "Unknown".data else s5

/-- Embedding of the inline filename cleaner of `jp_plot_01_to_02.py`
line 182: `str(cat_val).replace(" ", "_").replace("/", "_").replace(".", "")`.
Unlike `_clean_val_for_filename` it does not strip, does not replace colons,
does not remove forbidden filesystem characters and has no `"Unknown"`
fallback. -/
def clean_name_01_02 (v : List Char) : List Char :=
  dropChar '.' (replaceChar '/' '_' (replaceChar ' ' '_' v))

theorem mem_replaceChar {a b c : Char} {l : List Char}
    (h : c ∈ replaceChar a b l) : c = b ∨ (c ∈ l ∧ c ≠ a) := by
  rcases List.mem_map.1 h with ⟨x, hx, hxc⟩
  by_cases hxa : x == a
  · left; simpa [hxa] using hxc.symm
  · right
    have hx' : c = x := by simpa [hxa] using hxc.symm
    subst hx'
    exact ⟨hx, by simpa using hxa⟩

theorem clean_val_no_space {v : List Char} : ' ' ∉ _clean_val_for_filename v := by
  intro h
  unfold _clean_val_for_filename at h
  dsimp only at h
  split at h
  · revert h; decide
  · have h4 := List.mem_of_mem_filter h
    have h3 := List.mem_of_mem_filter h4
    rcases mem_replaceChar h3 with h' | ⟨h2, _⟩
    · exact absurd h' (by decide)
    rcases mem_replaceChar h2 with h' | ⟨h1, _⟩
    · exact absurd h' (by decide)
    rcases mem_replaceChar h1 with h' | ⟨_, hne⟩
    · exact absurd h' (by decide)
    · exact hne rfl

theorem clean_val_no_slash {v : List Char} : '/' ∉ _clean_val_for_filename v := by
  intro h
  unfold _clean_val_for_filename at h
  dsimp only at h
  split at h
  · revert h; decide
  · have h4 := List.mem_of_mem_filter h
    have h3 := List.mem_of_mem_filter h4
    rcases mem_replaceChar h3 with h' | ⟨h2, _⟩
    · exact absurd h' (by decide)
    rcases mem_replaceChar h2 with h' | ⟨_, hne⟩
    · exact absurd h' (by decide)
    · exact hne rfl

theorem clean_val_no_colon {v : List Char} : ':' ∉ _clean_val_for_filename v := by
  intro h
  unfold _clean_val_for_filename at h
  dsimp only at h
  split at h
  · revert h; decide
  · have h4 := List.mem_of_mem_filter h
    have h3 := List.mem_of_mem_filter h4
    rcases mem_replaceChar h3 with h' | ⟨_, hne⟩
    · exact absurd h' (by decide)
    · exact hne rfl

theorem clean_val_no_dot {v : List Char} : '.' ∉ _clean_val_for_filename v := by
  intro h
  unfold _clean_val_for_filename at h
  dsimp only at h
  split at h
  · revert h; decide
  · have h4 := List.mem_of_mem_filter h
    have := List.of_mem_filter h4
    revert this
    unfold dropChar at h4
    have := List.of_mem_filter (List.mem_of_mem_filter h : '.' ∈ _)
    simp at this

theorem clean_val_no_forbidden {v : List Char} {c : Char}
    (hc : c ∈ ['<', '>', '"', '|', '?', '*']) : c ∉ _clean_val_for_filename v := by
  intro h
  unfold _clean_val_for_filename at h
  dsimp only at h
  split at h
  · fin_cases hc <;> revert h <;> decide
  · have := List.of_mem_filter h
    simp only [Bool.not_eq_true'] at this
    rw [show ((c ∈ ['<', '>', '"', '|', '?', '*'] : Bool) = false) ↔
      c ∉ ['<', '>', '"', '|', '?', '*'] from by simp] at this
    exact this hc

theorem clean_val_ne_nil {v : List Char} : _clean_val_for_filename v ≠ [] := by
  unfold _clean_val_for_filename
  dsimp only
  split
  · decide
  · next h => simpa [List.isEmpty_iff] using h

/-- C8 counterexample: the slug machinery does not replace every whitespace
character with an underscore — an interior TAB survives
`_clean_val_for_filename` untouched — and the inline cleaner of
`jp_plot_01_to_02.py` neither replaces colons nor falls back to `"Unknown"`
on an empty value. -/
theorem c8_counterexample :
    _clean_val_for_filename ['a', '\t', 'b'] = ['a', '\t', 'b'] ∧
    ['a', '\t', 'b'] ≠ ['a', '_', 'b'] ∧
    clean_name_01_02 "a:b".data = "a:b".data ∧
    clean_name_01_02 "".data = [] ∧ ("".data : List Char) ≠ "Unknown".data := by
  refine ⟨by decide, by decide, by decide, by decide, by decide⟩

/-- C8 (amended): in `jp_plot_03_to_06.py`, `_clean_val_for_filename` strips
surrounding whitespace, replaces every space, `/` and `:` by `_`, removes
all dots and the forbidden filesystem characters, and is never empty
(falling back to the literal `"Unknown"`); in particular `"Group 4/5"`
slugs to `"Group_4_5"`. Interior non-space whitespace is kept, and the
inline cleaner of `jp_plot_01_to_02.py` only handles spaces, slashes and
dots. -/
theorem c8_slug_spec :
    (∀ v : List Char,
      _clean_val_for_filename v ≠ [] ∧
      ' ' ∉ _clean_val_for_filename v ∧
      '/' ∉ _clean_val_for_filename v ∧
      ':' ∉ _clean_val_for_filename v ∧
      '.' ∉ _clean_val_for_filename v ∧
      '<' ∉ _clean_val_for_filename v ∧
      '>' ∉ _clean_val_for_filename v ∧
      '"' ∉ _clean_val_for_filename v ∧
      '|' ∉ _clean_val_for_filename v ∧
      '?' ∉ _clean_val_for_filename v ∧
      '*' ∉ _clean_val_for_filename v) ∧
    _clean_val_for_filename "Group 4/5".data = "Group_4_5".data ∧
    _clean_val_for_filename "".data = "Unknown".data ∧
    _clean_val_for_filename "  ".data = "Unknown".data ∧
    clean_name_01_02 "Group 4/5".data = "Group_4_5".data := by
  refine ⟨fun v => ⟨clean_val_ne_nil, clean_val_no_space, clean_val_no_slash,
    clean_val_no_colon, clean_val_no_dot,
    clean_val_no_forbidden (by decide), clean_val_no_forbidden (by decide),
    clean_val_no_forbidden (by decide), clean_val_no_forbidden (by decide),
    clean_val_no_forbidden (by decide), clean_val_no_forbidden (by decide)⟩,
    by decide, by decide, by decide, by decide⟩

/-! ### Decimal rendering (Python `str(n)`, used by the f-strings) -/

/-- Python `str(n)` for a natural number, as a character list: this is the
decimal printer underlying Lean's `Nat.repr`. -/
def natStr (n : Nat) : List Char := Nat.toDigits 10 n

theorem toDigitsCore_sat (P : Char → Prop) (hP : ∀ k, k < 10 → P (Nat.digitChar k)) :
    ∀ (fuel n : Nat) (ds : List Char), (∀ c ∈ ds, P c) →
      ∀ c ∈ Nat.toDigitsCore 10 fuel n ds, P c := by
  intro fuel
  induction fuel with
  | zero => intro n ds hds c hc; exact hds c hc
  | succ f ih =>
    intro n ds hds c hc
    rw [Nat.toDigitsCore] at hc
    have hd : P (Nat.digitChar (n % 10)) := hP _ (Nat.mod_lt _ (by omega))
    by_cases h0 : n / 10 = 0
    · rw [if_pos h0] at hc
      rcases List.mem_cons.1 hc with h | h
      · exact h ▸ hd
      · exact hds c h
    · rw [if_neg h0] at hc
      refine ih (n / 10) (Nat.digitChar (n % 10) :: ds) ?_ c hc
      intro x hx
      rcases List.mem_cons.1 hx with h | h
      · exact h ▸ hd
      · exact hds x h

theorem toDigitsCore_length (b : Nat) :
    ∀ (fuel n : Nat) (ds : List Char), ds.length ≤ (Nat.toDigitsCore b fuel n ds).length := by
  intro fuel
  induction fuel with
  | zero => intro n ds; rw [Nat.toDigitsCore]
  | succ f ih =>
    intro n ds
    rw [Nat.toDigitsCore]
    by_cases h0 : n / b = 0
    · rw [if_pos h0]; simp
    · rw [if_neg h0]
      calc ds.length ≤ (Nat.digitChar (n % b) :: ds).length := by simp
        _ ≤ _ := ih (n / b) _

theorem natStr_ne_nil (n : Nat) : natStr n ≠ [] := by
  unfold natStr Nat.toDigits
  rw [Nat.toDigitsCore]
  by_cases h0 : n / 10 = 0
  · rw [if_pos h0]; simp
  · rw [if_neg h0]
    intro hcontra
    have hl := toDigitsCore_length 10 n (n / 10) [Nat.digitChar (n % 10)]
    rw [hcontra] at hl
    simp at hl

theorem natStr_sat (n : Nat) :
    ∀ c ∈ natStr n, c.isDigit = true ∧ pyIsSpace c = false ∧ c.isAlpha = false := by
  refine toDigitsCore_sat _ ?_ (n + 1) n [] (by simp)
  intro k hk
  interval_cases k <;> exact ⟨by decide, by decide, by decide⟩

theorem toDigitsCore_step {n : Nat} (f : Nat) (ds : List Char) (h : 10 ≤ n) :
    Nat.toDigitsCore 10 (f + 1) n ds
      = Nat.toDigitsCore 10 f (n / 10) (Nat.digitChar (n % 10) :: ds) := by
  rw [Nat.toDigitsCore]
  rw [if_neg (by omega)]

theorem toDigitsCore_base {n : Nat} (f : Nat) (ds : List Char) (h1 : 0 < n) (h2 : n < 10) :
    Nat.toDigitsCore 10 (f + 1) n ds = Nat.digitChar n :: ds := by
  rw [Nat.toDigitsCore]
  rw [if_pos (by omega), Nat.mod_eq_of_lt h2]

/-- Explicit form of `str(y)` for a four-digit year. -/
theorem natStr_four {y : Nat} (h1 : 1000 ≤ y) (h2 : y ≤ 9999) :
    natStr y = [Nat.digitChar (y / 1000), Nat.digitChar (y / 100 % 10),
                Nat.digitChar (y / 10 % 10), Nat.digitChar (y % 10)] := by
  have key : ∀ g : Nat, Nat.toDigitsCore 10 (g + 4) y []
      = [Nat.digitChar (y / 1000), Nat.digitChar (y / 100 % 10),
         Nat.digitChar (y / 10 % 10), Nat.digitChar (y % 10)] := by
    intro g
    have e1 : g + 4 = (g + 3) + 1 := by omega
    rw [e1, toDigitsCore_step _ _ (by omega)]
    have e2 : g + 3 = (g + 2) + 1 := by omega
    rw [e2, toDigitsCore_step _ _ (by omega)]
    have e3 : y / 10 / 10 = y / 100 := by omega
    have e4 : g + 2 = (g + 1) + 1 := by omega
    rw [e3, e4, toDigitsCore_step _ _ (by omega)]
    have e5 : y / 100 / 10 = y / 1000 := by omega
    rw [e5, toDigitsCore_base _ _ (by omega) (by omega)]
  have e0 : y + 1 = (y - 3) + 4 := by omega
  unfold natStr Nat.toDigits
  rw [e0, key]

/-- Single digit `str(q)` for `q < 10`. -/
theorem natStr_small (q : Nat) (h1 : 0 < q) (h2 : q < 10) :
    natStr q = [Nat.digitChar q] := by
  unfold natStr Nat.toDigits
  have e : q + 1 = 0 + 1 + q := by omega
  cases q with
  | zero => omega
  | succ k => exact toDigitsCore_base _ _ (by omega) h2

/-! ### Quarter and period labels (`jp_full_hs10_plot_script.py`) -/

/-- Embedding of `yyyymm_to_qtr` (jp_full_hs10_plot_script.py lines 123-127).
The source takes `int(str(yyyymm)[:4])` and `int(str(yyyymm)[4:6])`; for the
6-digit time codes required by the input contract these slices are exactly
`yyyymm / 100` and `yyyymm % 100`. -/
def yyyymm_to_qtr (yyyymm : Nat) : List Char :=
  let y := yyyymm / 100
  let m := yyyymm % 100
  let q := (m - 1) / 3 + 1
  natStr y ++ ' ' :: 'Q' :: natStr q

/-- Python `q.split()[0]` for a string that does not begin with whitespace:
the maximal whitespace-free prefix (after dropping leading whitespace). -/
def pySplitHead (l : List Char) : List Char :=
  (l.dropWhile pyIsSpace).takeWhile (fun c => !pyIsSpace c)

/-- Embedding of `qtr_to_period` (jp_full_hs10_plot_script.py lines 129-133):
`y = q.split()[0]`, then `"{y} H1"` when the label ends in `"Q1"` or `"Q2"`,
else `"{y} H2"`. -/
def qtr_to_period (q : List Char) : List Char :=
  let y := pySplitHead q
  if ['Q', '1'].isSuffixOf q || ['Q', '2'].isSuffixOf q then y ++ [' ', 'H', '1']
  else y ++ [' ', 'H', '2']

theorem takeWhile_append_of_all {p : Char → Bool} {A rest : List Char} {b : Char}
    (hA : ∀ c ∈ A, p c = true) (hb : p b = false) :
    (A ++ b :: rest).takeWhile p = A := by
  induction A with
  | nil => simp [List.takeWhile_cons, hb]
  | cons a A ih =>
    rw [List.cons_append, List.takeWhile_cons, hA a (by simp)]
    simp only [if_true]
    rw [ih (fun c hc => hA c (by simp [hc]))]

theorem pySplitHead_append {A rest : List Char}
    (hA : ∀ c ∈ A, pyIsSpace c = false) (hA0 : A ≠ []) :
    pySplitHead (A ++ ' ' :: rest) = A := by
  unfold pySplitHead
  have hdrop : (A ++ ' ' :: rest).dropWhile pyIsSpace = A ++ ' ' :: rest := by
    cases A with
    | nil => exact absurd rfl hA0
    | cons a A =>
      rw [List.cons_append, List.dropWhile_cons, hA a (by simp)]
      simp
  rw [hdrop]
  exact takeWhile_append_of_all (fun c hc => by rw [hA c hc]; rfl) (by decide)

theorem suffix_pair {A : List Char} {a b c d e : Char} :
    ([a, b] <:+ A ++ [c, d, e]) ↔ (a = d ∧ b = e) := by
  rw [← List.reverse_prefix]
  simp only [List.reverse_append, List.reverse_cons, List.reverse_nil]
  constructor
  · intro h
    simp only [List.nil_append, List.cons_append] at h
    rw [List.cons_prefix_cons] at h
    obtain ⟨hbe, h⟩ := h
    rw [List.cons_prefix_cons] at h
    exact ⟨h.1, hbe⟩
  · rintro ⟨rfl, rfl⟩
    simp only [List.nil_append, List.cons_append]
    rw [List.cons_prefix_cons]
    exact ⟨rfl, by rw [List.cons_prefix_cons]; simp⟩

theorem qtr_to_period_canon {A : List Char} (qc : Char)
    (hA : ∀ c ∈ A, pyIsSpace c = false) (hA0 : A ≠ []) :
    qtr_to_period (A ++ [' ', 'Q', qc])
      = A ++ (if qc = '1' ∨ qc = '2' then [' ', 'H', '1'] else [' ', 'H', '2']) := by
  unfold qtr_to_period
  dsimp only
  rw [show (A ++ [' ', 'Q', qc] : List Char) = A ++ ' ' :: ['Q', qc] from rfl,
    pySplitHead_append hA hA0]
  by_cases h12 : qc = '1' ∨ qc = '2'
  · rw [if_pos ?_, if_pos h12]
    rcases h12 with rfl | rfl
    · have : ['Q', '1'].isSuffixOf (A ++ ' ' :: ['Q', '1']) = true := by
        rw [List.isSuffixOf_iff_suffix]
        exact suffix_pair.2 ⟨rfl, rfl⟩
      rw [this]; rfl
    · have : ['Q', '2'].isSuffixOf (A ++ ' ' :: ['Q', '2']) = true := by
        rw [List.isSuffixOf_iff_suffix]
        exact suffix_pair.2 ⟨rfl, rfl⟩
      rw [this, Bool.or_true]
  · rw [if_neg ?_, if_neg h12]
    rw [Bool.or_eq_true]
    push_neg
    constructor
    · intro hcontra
      rw [List.isSuffixOf_iff_suffix] at hcontra
      have := (suffix_pair.1 hcontra).2
      exact h12 (Or.inl this.symm)
    · intro hcontra
      rw [List.isSuffixOf_iff_suffix] at hcontra
      have := (suffix_pair.1 hcontra).2
      exact h12 (Or.inr this.symm)

/-- C2: for every 6-digit year-month code with month m in [1..12],
`yyyymm_to_qtr` returns the label `"YYYY Qn"` with
n = ((m-1) div 3) + 1 = ceil(m/3), and composing `qtr_to_period` after
`yyyymm_to_qtr` yields `"YYYY H1"` exactly when m ≤ 6 and `"YYYY H2"`
exactly when m ≥ 7. -/
theorem c2_quarter_period (n : Nat) (h6a : 100000 ≤ n) (h6b : n < 1000000)
    (hm1 : 1 ≤ n % 100) (hm2 : n % 100 ≤ 12) :
    (yyyymm_to_qtr n
        = natStr (n / 100) ++ ' ' :: 'Q' :: natStr ((n % 100 - 1) / 3 + 1)
      ∧ (n % 100 - 1) / 3 + 1 = (n % 100 + 2) / 3)
    ∧ (qtr_to_period (yyyymm_to_qtr n) = natStr (n / 100) ++ [' ', 'H', '1']
        ↔ n % 100 ≤ 6)
    ∧ (qtr_to_period (yyyymm_to_qtr n) = natStr (n / 100) ++ [' ', 'H', '2']
        ↔ 7 ≤ n % 100) := by
  have hA : ∀ c ∈ natStr (n / 100), pyIsSpace c = false :=
    fun c hc => (natStr_sat _ c hc).2.1
  have hA0 := natStr_ne_nil (n / 100)
  have hne12 : natStr (n / 100) ++ [' ', 'H', '1'] ≠ natStr (n / 100) ++ [' ', 'H', '2'] := by
    intro h
    have := List.append_cancel_left h
    simp at this
  have hcomp : qtr_to_period (yyyymm_to_qtr n)
      = natStr (n / 100) ++ (if n % 100 ≤ 6 then [' ', 'H', '1'] else [' ', 'H', '2']) := by
    unfold yyyymm_to_qtr
    dsimp only
    have hq14 : (n % 100 - 1) / 3 + 1 = 1 ∨ (n % 100 - 1) / 3 + 1 = 2 ∨
        (n % 100 - 1) / 3 + 1 = 3 ∨ (n % 100 - 1) / 3 + 1 = 4 := by omega
    rcases hq14 with hq | hq | hq | hq <;> rw [hq]
    · rw [natStr_small 1 (by omega) (by omega),
        show Nat.digitChar 1 = '1' from by decide,
        qtr_to_period_canon '1' hA hA0,
        if_pos (Or.inl rfl), if_pos (show n % 100 ≤ 6 by omega)]
    · rw [natStr_small 2 (by omega) (by omega),
        show Nat.digitChar 2 = '2' from by decide,
        qtr_to_period_canon '2' hA hA0,
        if_pos (Or.inr rfl), if_pos (show n % 100 ≤ 6 by omega)]
    · rw [natStr_small 3 (by omega) (by omega),
        show Nat.digitChar 3 = '3' from by decide,
        qtr_to_period_canon '3' hA hA0,
        if_neg (by decide), if_neg (show ¬ n % 100 ≤ 6 by omega)]
    · rw [natStr_small 4 (by omega) (by omega),
        show Nat.digitChar 4 = '4' from by decide,
        qtr_to_period_canon '4' hA hA0,
        if_neg (by decide), if_neg (show ¬ n % 100 ≤ 6 by omega)]
  refine ⟨⟨rfl, by omega⟩, ?_, ?_⟩
  · rw [hcomp]
    by_cases hm6 : n % 100 ≤ 6
    · rw [if_pos hm6]
      exact iff_of_true rfl hm6
    · rw [if_neg hm6]
      exact iff_of_false (fun h => hne12 h.symm) hm6
  · rw [hcomp]
    by_cases hm6 : n % 100 ≤ 6
    · rw [if_pos hm6]
      exact iff_of_false hne12 (by omega)
    · rw [if_neg hm6]
      exact iff_of_true rfl (by omega)

/-- C2 witness: the general theorem applied at the concrete code 202407
(July 2024), whose quarter is Q3 and period is 2024 H2. -/
theorem c2_witness :
    (100000 ≤ 202407 ∧ 202407 < 1000000 ∧ 1 ≤ 202407 % 100 ∧ 202407 % 100 ≤ 12)
    ∧ (qtr_to_period (yyyymm_to_qtr 202407)
        = natStr (202407 / 100) ++ [' ', 'H', '2'] ↔ 7 ≤ 202407 % 100) :=
  ⟨⟨by decide, by decide, by decide, by decide⟩,
    (c2_quarter_period 202407 (by decide) (by decide) (by decide) (by decide)).2.2⟩

/-! ### Quarter-label sort key (`_qtr_sort_key`, identical in
`jp_plot_01_to_02.py` lines 65-79 and `jp_plot_03_to_06.py` lines 61-76) -/

/-- Numeric value of an ASCII digit character. -/
def digVal (c : Char) : Nat := c.toNat - 48

/-- Regex fragment `(\d{4})`: four leading digit characters, returned as a
year number together with the remaining input. -/
def readYear : List Char → Option (Nat × List Char)
  | a :: b :: c :: d :: rest =>
    if a.isDigit && b.isDigit && c.isDigit && d.isDigit then
      some (((digVal a * 10 + digVal b) * 10 + digVal c) * 10 + digVal d, rest)
    else none
  | _ => none

/-- Regex fragment `\s+`: at least one whitespace character, maximally
consumed. -/
def skipWs (l : List Char) : Option (List Char) :=
  if (l.takeWhile pyIsSpace).isEmpty then none else some (l.dropWhile pyIsSpace)

/-- Regex fragment `([A-Za-z]{3})`: three ASCII letters. -/
def month3 : List Char → Option (List Char × List Char)
  | a :: b :: c :: rest =>
    if a.isAlpha && b.isAlpha && c.isAlpha then some ([a, b, c], rest) else none
  | _ => none

/-- Tail of the canonical pattern after the year and whitespace:
`Q([1-4])$`. -/
def canonTail (y : Nat) : List Char → Option (Nat × Nat)
  | ['Q', q] =>
    if q == '1' || q == '2' || q == '3' || q == '4' then some (y, digVal q) else none
  | _ => none

/-- Anchored match of `(\d{4})\s+Q([1-4])$`, giving (year, quarter). -/
def matchCanon (lbl : List Char) : Option (Nat × Nat) := do
  let (y, r1) ← readYear lbl
  let r2 ← skipWs r1
  canonTail y r2

/-- Tail of the running-window pattern after the year and whitespace:
`([A-Za-z]{3})(?:/([A-Za-z]{3})(?:/([A-Za-z]{3}))?)?$`; only the first
month token (regex group 2) is returned. -/
def runTail (y : Nat) (r2 : List Char) : Option (Nat × List Char) := do
  let (m1, r3) ← month3 r2
  match r3 with
  | [] => some (y, m1)
  | '/' :: r4 => do
    let (_, r5) ← month3 r4
    match r5 with
    | [] => some (y, m1)
    | '/' :: r6 => do
      let (_, r7) ← month3 r6
      if r7.isEmpty then some (y, m1) else none
    | _ => none
  | _ => none

/-- Anchored match of the running-window regex, giving (year, first month
token). -/
def matchRun (lbl : List Char) : Option (Nat × List Char) := do
  let (y, r1) ← readYear lbl
  let r2 ← skipWs r1
  runTail y r2

/-- Python `str.capitalize()`: first character upper-cased, the rest
lower-cased. -/
def pyCapitalize : List Char → List Char
  | [] => []
  | c :: cs => c.toUpper :: cs.map Char.toLower

/-- `list(calendar.month_abbr)`: empty string followed by the twelve
English three-letter month abbreviations. -/
def month_abbr : List (List Char) :=
  [[], "Jan".data, "Feb".data, "Mar".data, "Apr".data, "May".data, "Jun".data,
   "Jul".data, "Aug".data, "Sep".data, "Oct".data, "Nov".data, "Dec".data]

/-- Embedding of `_qtr_sort_key`. A `none` result models the uncaught
`ValueError` raised by `list(_cal.month_abbr).index(...)` when the first
three-letter token of a running-window-shaped label is not a month
abbreviation. -/
def _qtr_sort_key (lbl : List Char) : Option (Nat × Nat × Nat) :=
  match matchCanon lbl with
  | some (y, q) => some (y, q, 0)
  | none =>
    match matchRun lbl with
    | some (y, m1) =>
      match month_abbr.indexOf? (pyCapitalize m1) with
      | some mon => some (y, (mon - 1) / 3 + 1, 1)
      | none => none
    | none => some (0, 0, 0)

/-- Lexicographic order on Python key tuples `(year, quarter, tiebreak)`. -/
def keyLe (a b : Nat × Nat × Nat) : Bool :=
  decide (a.1 < b.1) || (a.1 == b.1 &&
    (decide (a.2.1 < b.2.1) || (a.2.1 == b.2.1 && decide (a.2.2 ≤ b.2.2))))

/-- Stable insertion of an element into a sorted list. -/
def orderedInsert (le : α → α → Bool) (a : α) : List α → List α
  | [] => [a]
  | b :: l => if le a b then a :: b :: l else b :: orderedInsert le a l

/-- Stable ascending sort (insertion sort), the specification of Python's
`sorted`. -/
def sortList (le : α → α → Bool) : List α → List α
  | [] => []
  | a :: l => orderedInsert le a (sortList le l)

/-- Python `sorted(labels, key=_qtr_sort_key)`: CPython materializes every
key first (so a `ValueError` from any key aborts the sort, modelled as
`none`), then sorts ascending by lexicographic tuple comparison. -/
def sortedLabels (ls : List (List Char)) : Option (List (List Char)) :=
  if ls.all (fun l => (_qtr_sort_key l).isSome) then
    some (sortList
      (fun a b => keyLe ((_qtr_sort_key a).getD (0, 0, 0)) ((_qtr_sort_key b).getD (0, 0, 0)))
      ls)
  else none

theorem digVal_digitChar {k : Nat} (h : k < 10) : digVal (Nat.digitChar k) = k := by
  interval_cases k <;> decide

theorem digitChar_isDigit {k : Nat} (h : k < 10) : (Nat.digitChar k).isDigit = true := by
  interval_cases k <;> decide

theorem readYear_natStr {y : Nat} (h1 : 1000 ≤ y) (h2 : y ≤ 9999) (rest : List Char) :
    readYear (natStr y ++ rest) = some (y, rest) := by
  rw [natStr_four h1 h2]
  simp only [List.cons_append, List.nil_append, readYear]
  rw [if_pos]
  · congr 2
    rw [digVal_digitChar (by omega), digVal_digitChar (by omega),
      digVal_digitChar (by omega), digVal_digitChar (by omega)]
    omega
  · rw [digitChar_isDigit (by omega), digitChar_isDigit (by omega),
      digitChar_isDigit (by omega), digitChar_isDigit (by omega)]
    rfl

theorem skipWs_space_cons {c : Char} (rest : List Char) (hc : pyIsSpace c = false) :
    skipWs (' ' :: c :: rest) = some (c :: rest) := by
  unfold skipWs
  rw [List.takeWhile_cons, List.dropWhile_cons]
  rw [show pyIsSpace ' ' = true from rfl]
  simp only [if_true]
  rw [List.takeWhile_cons, List.dropWhile_cons, hc]
  simp

theorem matchCanon_split {y : Nat} (h1 : 1000 ≤ y) (h2 : y ≤ 9999)
    {c : Char} (hc : pyIsSpace c = false) (rest : List Char) :
    matchCanon (natStr y ++ ' ' :: c :: rest) = canonTail y (c :: rest) := by
  unfold matchCanon
  rw [readYear_natStr h1 h2]
  simp only [Option.pure_def, Option.bind_eq_bind, Option.some_bind]
  rw [skipWs_space_cons rest hc]
  simp only [Option.some_bind]

theorem matchRun_split {y : Nat} (h1 : 1000 ≤ y) (h2 : y ≤ 9999)
    {c : Char} (hc : pyIsSpace c = false) (rest : List Char) :
    matchRun (natStr y ++ ' ' :: c :: rest) = runTail y (c :: rest) := by
  unfold matchRun
  rw [readYear_natStr h1 h2]
  simp only [Option.pure_def, Option.bind_eq_bind, Option.some_bind]
  rw [skipWs_space_cons rest hc]
  simp only [Option.some_bind]

/-- C5 counterexample: `"2024 Xyz"` is not a running-window label (its
three-letter token is not a month abbreviation), so by the claim it should
be keyed `(0,0,0)`; the code instead raises `ValueError` from
`list(_cal.month_abbr).index("Xyz")`, modelled as `none`. -/
theorem c5_counterexample :
    _qtr_sort_key "2024 Xyz".data = none ∧
    (none : Option (Nat × Nat × Nat)) ≠ some (0, 0, 0) :=
  ⟨by decide, by decide⟩

/-- C5 (amended): `_qtr_sort_key` maps a canonical label `"YYYY Qn"` to
`(year, n, 0)` and a running-window label starting with a valid three-letter
month abbreviation to `(year, quarter-of-first-month, 1)`; a label matching
NEITHER regex is keyed `(0, 0, 0)` (but a running-window-shaped label whose
first token is not a month abbreviation raises `ValueError` instead of
being keyed). Canonical keys tie-break before running-window keys of the
same year and quarter, and the example list sorts chronologically. -/
theorem c5_sort_key_spec :
    (∀ y q : Nat, 1000 ≤ y → y ≤ 9999 → 1 ≤ q → q ≤ 4 →
      _qtr_sort_key (natStr y ++ ' ' :: 'Q' :: natStr q) = some (y, q, 0)) ∧
    (∀ y mon : Nat, 1000 ≤ y → y ≤ 9999 → 1 ≤ mon → mon ≤ 12 →
      _qtr_sort_key (natStr y ++ ' ' :: month_abbr.getD mon [])
        = some (y, (mon - 1) / 3 + 1, 1)) ∧
    (∀ lbl : List Char, matchCanon lbl = none → matchRun lbl = none →
      _qtr_sort_key lbl = some (0, 0, 0)) ∧
    sortedLabels ["2024 Q3".data, "2023 Q1".data, "2024 Jan/Feb/Mar".data]
      = some ["2023 Q1".data, "2024 Jan/Feb/Mar".data, "2024 Q3".data] ∧
    _qtr_sort_key "2024 Jan/Feb/Mar".data = some (2024, 1, 1) ∧
    (∀ y q : Nat, keyLe (y, q, 0) (y, q, 1) = true ∧ keyLe (y, q, 1) (y, q, 0) = false) := by
  refine ⟨?_, ?_, ?_, by decide, by decide, ?_⟩
  · intro y q hy1 hy2 hq1 hq2
    have hq : q = 1 ∨ q = 2 ∨ q = 3 ∨ q = 4 := by omega
    rcases hq with rfl | rfl | rfl | rfl
    · rw [natStr_small 1 (by decide) (by decide)]
      unfold _qtr_sort_key
      rw [matchCanon_split hy1 hy2 (by decide) _]
      rfl
    · rw [natStr_small 2 (by decide) (by decide)]
      unfold _qtr_sort_key
      rw [matchCanon_split hy1 hy2 (by decide) _]
      rfl
    · rw [natStr_small 3 (by decide) (by decide)]
      unfold _qtr_sort_key
      rw [matchCanon_split hy1 hy2 (by decide) _]
      rfl
    · rw [natStr_small 4 (by decide) (by decide)]
      unfold _qtr_sort_key
      rw [matchCanon_split hy1 hy2 (by decide) _]
      rfl
  · intro y mon hy1 hy2 hm1 hm2
    have tail_eval : ∀ (m1 m2 m3 : Char) (k : Nat), pyIsSpace m1 = false →
        canonTail y (m1 :: [m2, m3]) = none →
        runTail y (m1 :: [m2, m3]) = some (y, [m1, m2, m3]) →
        month_abbr.indexOf? (pyCapitalize [m1, m2, m3]) = some k →
        _qtr_sort_key (natStr y ++ ' ' :: m1 :: [m2, m3]) = some (y, (k - 1) / 3 + 1, 1) := by
      intro m1 m2 m3 k hsp hct hrt hidx
      unfold _qtr_sort_key
      rw [matchCanon_split hy1 hy2 hsp, hct, matchRun_split hy1 hy2 hsp, hrt]
      dsimp only
      rw [hidx]
    interval_cases mon <;> exact tail_eval _ _ _ _ (by decide) rfl rfl (by decide)
  · intro lbl hc hr
    unfold _qtr_sort_key
    rw [hc, hr]
  · intro y q
    constructor
    · simp [keyLe]
    · simp [keyLe]

/-- C5 witness: the canonical branch of the amended theorem applied at the
concrete label `"2024 Q3"`. -/
theorem c5_witness :
    (1000 ≤ 2024 ∧ 2024 ≤ 9999 ∧ 1 ≤ 3 ∧ 3 ≤ 4) ∧
    _qtr_sort_key (natStr 2024 ++ ' ' :: 'Q' :: natStr 3) = some (2024, 3, 0) :=
  ⟨⟨by decide, by decide, by decide, by decide⟩,
    c5_sort_key_spec.1 2024 3 (by decide) (by decide) (by decide) (by decide)⟩

/-! ### The renderer (`stacked_plot` in jp_plot_01_to_02.py,
`_stacked_plot` in jp_plot_03_to_06.py — the two bodies are identical) -/

/-- A float cell: `none` models IEEE NaN, `some x` an exact value. -/
abbrev Val := Option ℚ

/-- A pandas pivot table: named columns and rows of cells (row label kept
from the index, cells aligned with `cols`). -/
structure Pivot where
  cols : List String
  rows : List (String × List Val)

/-- Python `val == 0`: false for NaN. -/
def vIsZero : Val → Bool
  | some x => x == 0
  | none => false

/-- Python `val > t`: false for NaN. -/
def vGt (v : Val) (t : ℚ) : Bool :=
  match v with
  | some x => decide (t < x)
  | none => false

/-- Float addition: NaN-absorbing. -/
def vAdd : Val → Val → Val
  | some a, some b => some (a + b)
  | _, _ => none

/-- Float halving (`val/2`): NaN stays NaN. -/
def vHalf : Val → Val
  | some a => some (a / 2)
  | none => none

/-- numpy pairwise max: NaN-propagating. -/
def vMax : Val → Val → Val
  | some a, some b => some (max a b)
  | _, _ => none

/-- `col_totals = pivot.sum(axis=0)` for column `j`: pandas sums columns
with `skipna=True`, so NaN cells are dropped and an all-NaN column totals
to 0. -/
def col_total (p : Pivot) (j : Nat) : ℚ :=
  ((p.rows.map (fun r => r.2.getD j none)).filterMap id).sum

/-- `all_below = (col_totals <= label_thresh).all()`. -/
def all_below (p : Pivot) (t : ℚ) : Bool :=
  (List.range p.cols.length).all (fun j => decide (col_total p j ≤ t))

/-- The visible-column list (by position):
`[c for c in pivot.columns if (col_totals[c] > label_thresh or all_below) and col_totals[c] > 0]`. -/
def visibleIdx (p : Pivot) (t : ℚ) : List Nat :=
  (List.range p.cols.length).filter
    (fun j => (decide (t < col_total p j) || all_below p t) && decide (0 < col_total p j))

/-- `pivot = pivot[visible]`: keep the selected columns, in order. -/
def selectCols (p : Pivot) (js : List Nat) : Pivot :=
  { cols := js.map (fun j => p.cols.getD j ""),
    rows := p.rows.map (fun r => (r.1, js.map (fun j => r.2.getD j none))) }

/-- `pivot.values.max()`: numpy maximum over all cells, propagating NaN;
`none` is also returned for the empty collection (where numpy raises, see
`stacked_plot`). -/
def npMax : List Val → Val
  | [] => none
  | v :: vs => vs.foldl vMax v

/-- `show_all = max_val <= label_thresh`: false when the maximum is NaN. -/
def show_all (cells : List Val) (t : ℚ) : Bool :=
  match npMax cells with
  | some m => decide (m ≤ t)
  | none => false

/-- The per-row labeling loop: walks the cells of one row keeping the
cumulative stack height, skipping zero cells (`continue`), and emits
`(column index, value, y position)` for each labeled segment
(`ax.text(i, cumulative + val/2, fmt.format(val=val), ...)`). -/
def segLabels (t : ℚ) (sa : Bool) : List Val → Nat → Val → List (Nat × Val × Val)
  | [], _, _ => []
  | v :: vs, j, cum =>
    if vIsZero v then segLabels t sa vs (j + 1) cum
    else
      (if sa || vGt v t then [(j, v, vAdd cum (vHalf v))] else [])
        ++ segLabels t sa vs (j + 1) (vAdd cum v)

/-- The loop over `pivot.iterrows()`: rows are enumerated from `i`. -/
def allLabels (t : ℚ) (sa : Bool) :
    List (String × List Val) → Nat → List (Nat × Nat × Val × Val)
  | [], _ => []
  | r :: rs, i =>
    (segLabels t sa r.2 0 (some 0)).map (fun x => (i, x.1, x.2.1, x.2.2))
      ++ allLabels t sa rs (i + 1)

/-- Embedding of `stacked_plot`: visibility filtering, then
`pivot.plot(kind="bar", ...)` — which raises
`TypeError("no numeric data to plot")` on a frame with no visible column
(or no row), modelled as `.error` — then the global maximum, then the
label loop. The emitted labels are returned. -/
def stacked_plot (p : Pivot) (t : ℚ) : Except String (List (Nat × Nat × Val × Val)) :=
  let q := selectCols p (visibleIdx p t)
  if q.cols.isEmpty || q.rows.isEmpty then .error "no numeric data to plot"
  else
    let cells := (q.rows.map Prod.snd).flatten
    .ok (allLabels t (show_all cells t) q.rows 0)

/-- C3: a column is visible iff (its total exceeds the threshold, or every
column total is at most the threshold) and its total is strictly positive;
with totals {5, 3, 400} and threshold 10 only the 400 column is visible,
while with totals {1, 2, 3} all three are visible. -/
theorem c3_visibility :
    (∀ (p : Pivot) (t : ℚ) (j : Nat),
      j ∈ visibleIdx p t ↔
        j < p.cols.length
          ∧ (t < col_total p j ∨ ∀ k, k < p.cols.length → col_total p k ≤ t)
          ∧ 0 < col_total p j) ∧
    visibleIdx ⟨["A", "B", "C"], [("r", [some 5, some 3, some 400])]⟩ 10 = [2] ∧
    visibleIdx ⟨["A", "B", "C"], [("r", [some 1, some 2, some 3])]⟩ 10 = [0, 1, 2] := by
  refine ⟨?_, ?_, ?_⟩
  · intro p t j
    unfold visibleIdx all_below
    rw [List.mem_filter, List.mem_range]
    simp only [Bool.and_eq_true, Bool.or_eq_true, decide_eq_true_eq,
      List.all_eq_true, List.mem_range]
  · norm_num [visibleIdx, all_below, col_total, List.range_succ, List.filter_cons,
      List.getD, List.filterMap_cons]
  · norm_num [visibleIdx, all_below, col_total, List.range_succ, List.filter_cons,
      List.getD, List.filterMap_cons]

theorem mem_segLabels (t : ℚ) (sa : Bool) :
    ∀ (vs : List Val) (j0 : Nat) (cum : Val) (j : Nat) (val : Val),
      (∃ y, (j, val, y) ∈ segLabels t sa vs j0 cum) ↔
        (j0 ≤ j ∧ vs.get? (j - j0) = some val ∧ vIsZero val = false ∧
          (sa = true ∨ vGt val t = true)) := by
  intro vs
  induction vs with
  | nil =>
    intro j0 cum j val
    simp [segLabels]
  | cons v vs ih =>
    intro j0 cum j val
    rcases Bool.eq_false_or_eq_true (vIsZero v) with hz | hz
    · simp only [segLabels, hz, if_true]
      rw [ih]
      constructor
      · rintro ⟨h1, h2, h3, h4⟩
        refine ⟨by omega, ?_, h3, h4⟩
        rw [show j - j0 = (j - (j0 + 1)) + 1 from by omega, List.get?_cons_succ]
        exact h2
      · rintro ⟨h1, h2, h3, h4⟩
        rcases Nat.lt_or_ge j0 j with hlt | hge
        · refine ⟨by omega, ?_, h3, h4⟩
          rw [show j - j0 = (j - (j0 + 1)) + 1 from by omega,
            List.get?_cons_succ] at h2
          exact h2
        · have hj : j = j0 := by omega
          subst hj
          rw [Nat.sub_self, List.get?_cons_zero] at h2
          obtain rfl : v = val := by injection h2
          rw [hz] at h3
          exact absurd h3 (by simp)
    · rcases Bool.eq_false_or_eq_true (sa || vGt v t) with hc | hc
      · simp only [segLabels, hz, Bool.false_eq_true, if_false, hc, if_true,
          List.singleton_append, List.mem_cons]
        constructor
        · rintro ⟨y, hy | hy⟩
          · obtain ⟨rfl, rfl, rfl⟩ : j = j0 ∧ val = v ∧ y = vAdd cum (vHalf v) := by
              simpa [Prod.ext_iff] using hy
            refine ⟨le_refl _, ?_, hz, ?_⟩
            · rw [Nat.sub_self, List.get?_cons_zero]
            · simpa using hc
          · have hrec : ∃ y, (j, val, y) ∈ segLabels t sa vs (j0 + 1) (vAdd cum v) := ⟨y, hy⟩
            rw [ih] at hrec
            obtain ⟨h1, h2, h3, h4⟩ := hrec
            refine ⟨by omega, ?_, h3, h4⟩
            rw [show j - j0 = (j - (j0 + 1)) + 1 from by omega, List.get?_cons_succ]
            exact h2
        · rintro ⟨h1, h2, h3, h4⟩
          rcases Nat.lt_or_ge j0 j with hlt | hge
          · have hrec : ∃ y, (j, val, y) ∈ segLabels t sa vs (j0 + 1) (vAdd cum v) := by
              rw [ih]
              refine ⟨by omega, ?_, h3, h4⟩
              rw [show j - j0 = (j - (j0 + 1)) + 1 from by omega,
                List.get?_cons_succ] at h2
              exact h2
            obtain ⟨y, hy⟩ := hrec
            exact ⟨y, Or.inr hy⟩
          · have hj : j = j0 := by omega
            subst hj
            rw [Nat.sub_self, List.get?_cons_zero] at h2
            obtain rfl : v = val := by injection h2
            exact ⟨vAdd cum (vHalf v), Or.inl rfl⟩
      · simp only [segLabels, hz, Bool.false_eq_true, if_false, hc,
          List.nil_append]
        rw [ih]
        constructor
        · rintro ⟨h1, h2, h3, h4⟩
          refine ⟨by omega, ?_, h3, h4⟩
          rw [show j - j0 = (j - (j0 + 1)) + 1 from by omega, List.get?_cons_succ]
          exact h2
        · rintro ⟨h1, h2, h3, h4⟩
          rcases Nat.lt_or_ge j0 j with hlt | hge
          · refine ⟨by omega, ?_, h3, h4⟩
            rw [show j - j0 = (j - (j0 + 1)) + 1 from by omega,
              List.get?_cons_succ] at h2
            exact h2
          · have hj : j = j0 := by omega
            subst hj
            rw [Nat.sub_self, List.get?_cons_zero] at h2
            obtain rfl : v = val := by injection h2
            have hsa : sa = false := by
              rcases Bool.eq_false_or_eq_true sa with h | h
              · rw [h] at hc; simp at hc
              · exact h
            have hgt : vGt v t = false := by
              rcases Bool.eq_false_or_eq_true (vGt v t) with h | h
              · rw [h] at hc; simp at hc
              · exact h
            rcases h4 with h4 | h4
            · rw [hsa] at h4; exact absurd h4 (by simp)
            · rw [hgt] at h4; exact absurd h4 (by simp)

theorem mem_allLabels (t : ℚ) (sa : Bool) :
    ∀ (rs : List (String × List Val)) (i0 i j : Nat) (val : Val),
      (∃ y, (i, j, val, y) ∈ allLabels t sa rs i0) ↔
        (i0 ≤ i ∧ ∃ r, rs.get? (i - i0) = some r ∧
          ∃ y, (j, val, y) ∈ segLabels t sa r.2 0 (some 0)) := by
  intro rs
  induction rs with
  | nil =>
    intro i0 i j val
    simp [allLabels]
  | cons r rs ih =>
    intro i0 i j val
    simp only [allLabels, List.mem_append, List.mem_map, exists_or]
    constructor
    · rintro (⟨y, x, hx, hxy⟩ | ⟨y, hy⟩)
      · obtain ⟨rfl, rfl, rfl, rfl⟩ :
            i0 = i ∧ x.1 = j ∧ x.2.1 = val ∧ x.2.2 = y := by
          simpa [Prod.ext_iff] using hxy
        refine ⟨le_refl _, r, ?_, x.2.2, ?_⟩
        · rw [Nat.sub_self, List.get?_cons_zero]
        · simpa using hx
      · have hrec : ∃ y, (i, j, val, y) ∈ allLabels t sa rs (i0 + 1) := ⟨y, hy⟩
        rw [ih] at hrec
        obtain ⟨h1, r', h2, hseg⟩ := hrec
        refine ⟨by omega, r', ?_, hseg⟩
        rw [show i - i0 = (i - (i0 + 1)) + 1 from by omega, List.get?_cons_succ]
        exact h2
    · rintro ⟨h1, r', h2, y, hseg⟩
      rcases Nat.lt_or_ge i0 i with hlt | hge
      · have hrec : ∃ y, (i, j, val, y) ∈ allLabels t sa rs (i0 + 1) := by
          rw [ih]
          refine ⟨by omega, r', ?_, y, hseg⟩
          rw [show i - i0 = (i - (i0 + 1)) + 1 from by omega,
            List.get?_cons_succ] at h2
          exact h2
        obtain ⟨y', hy'⟩ := hrec
        exact Or.inr ⟨y', hy'⟩
      · have hi : i = i0 := by omega
        subst hi
        rw [Nat.sub_self, List.get?_cons_zero] at h2
        obtain rfl : r = r' := by injection h2
        exact Or.inl ⟨y, (j, val, y), hseg, rfl⟩

theorem npMax_some_isSome {l : List Val} {m : ℚ} (h : npMax l = some m) :
    ∀ v ∈ l, v.isSome = true := by
  cases l with
  | nil => simp [npMax] at h
  | cons w ws =>
    have key : ∀ (us : List Val) (acc : Val), (us.foldl vMax acc).isSome = true →
        acc.isSome = true ∧ ∀ v ∈ us, v.isSome = true := by
      intro us
      induction us with
      | nil =>
        intro acc h
        exact ⟨h, by simp⟩
      | cons u us ih =>
        intro acc h
        rw [List.foldl_cons] at h
        obtain ⟨hacc, hall⟩ := ih (vMax acc u) h
        refine ⟨?_, ?_⟩
        · cases acc with
          | none => cases u <;> simp [vMax] at hacc
          | some a => rfl
        · intro v hv
          rcases List.mem_cons.1 hv with h | hv'
          · rw [h]
            cases u with
            | none => cases acc <;> simp [vMax] at hacc
            | some b => rfl
          · exact hall v hv'
    have h' : (ws.foldl vMax w).isSome = true := by
      rw [show List.foldl vMax w ws = npMax (w :: ws) from rfl, h]
      rfl
    obtain ⟨hw, hws⟩ := key ws w h'
    intro v hv
    rcases List.mem_cons.1 hv with rfl | hv'
    · exact hw
    · exact hws v hv'

/-- C4 (amended): in the visibility-filtered matrix a cell is labeled iff it
is neither zero nor NaN and either the MATRIX-WIDE maximum cell
(`pivot.values.max()`) is at most the threshold or the cell's own value
strictly exceeds it. The spec's "row's maximum cell" does not match the
code, which computes a single global maximum for the whole filtered
matrix. -/
theorem c4_label_policy (p : Pivot) (t : ℚ) (out : List (Nat × Nat × Val × Val))
    (hout : stacked_plot p t = .ok out)
    (i j : Nat) (row : String × List Val) (val : Val)
    (hrow : (selectCols p (visibleIdx p t)).rows.get? i = some row) :
    (∃ y, (i, j, val, y) ∈ out) ↔
      (row.2.get? j = some val ∧ vIsZero val = false ∧
        (show_all ((selectCols p (visibleIdx p t)).rows.map Prod.snd).flatten t = true
          ∨ vGt val t = true)) := by
  unfold stacked_plot at hout
  dsimp only at hout
  split at hout
  · simp at hout
  · have hout' : allLabels t
        (show_all ((selectCols p (visibleIdx p t)).rows.map Prod.snd).flatten t)
        (selectCols p (visibleIdx p t)).rows 0 = out := by
      injection hout
    rw [← hout']
    rw [mem_allLabels]
    simp only [Nat.zero_le, Nat.sub_zero, true_and]
    constructor
    · rintro ⟨r, hr, hseg⟩
      rw [hrow] at hr
      obtain rfl : row = r := by injection hr
      rw [mem_segLabels] at hseg
      obtain ⟨-, h2, h3, h4⟩ := hseg
      exact ⟨by simpa using h2, h3, h4⟩
    · rintro ⟨h2, h3, h4⟩
      refine ⟨row, hrow, ?_⟩
      rw [mem_segLabels]
      exact ⟨Nat.zero_le _, by simpa using h2, h3, h4⟩

/-- The concrete two-row matrix used for C4: one small row under a large
one, single visible column. -/
def p4ex : Pivot := ⟨["A"], [("r1", [some 5]), ("r2", [some 400])]⟩

theorem p4ex_eval : stacked_plot p4ex 10 = .ok [(1, 0, some 400, some 200)] := by
  have hct : col_total (⟨["A"], [("r1", [some 5]), ("r2", [some 400])]⟩ : Pivot) 0 = 405 := by
    norm_num [col_total, List.filterMap_cons, List.getD]
  have hvis : visibleIdx p4ex 10 = [0] := by
    show visibleIdx ⟨["A"], [("r1", [some 5]), ("r2", [some 400])]⟩ 10 = [0]
    norm_num [visibleIdx, all_below, List.range_succ, List.filter_cons, hct]
  unfold stacked_plot
  rw [hvis]
  norm_num [p4ex, selectCols, show_all, npMax, vMax, allLabels, segLabels,
    vIsZero, vGt, vAdd, vHalf, List.getD]

theorem p4ex_row1 :
    (selectCols p4ex (visibleIdx p4ex 10)).rows.get? 1 = some ("r2", [some 400]) := by
  have hct : col_total (⟨["A"], [("r1", [some 5]), ("r2", [some 400])]⟩ : Pivot) 0 = 405 := by
    norm_num [col_total, List.filterMap_cons, List.getD]
  have hvis : visibleIdx p4ex 10 = [0] := by
    show visibleIdx ⟨["A"], [("r1", [some 5]), ("r2", [some 400])]⟩ 10 = [0]
    norm_num [visibleIdx, all_below, List.range_succ, List.filter_cons, hct]
  rw [hvis]
  norm_num [p4ex, selectCols, List.getD]

/-- C4 counterexample: at `p4ex` with threshold 10, row `"r1"` has maximum
cell 5 ≤ 10 and a nonzero cell, so the claimed per-row rule would label
it; the rendered output labels only the 400 cell of row `"r2"` (row index
1), because the code uses the global matrix maximum 400 > 10. -/
theorem c4_counterexample :
    stacked_plot p4ex 10 = .ok [(1, 0, some 400, some 200)] ∧
    p4ex.rows.get? 0 = some ("r1", [some 5]) ∧
    npMax [some 5] = some 5 ∧ (5:ℚ) ≤ 10 ∧ vIsZero (some 5) = false ∧
    [((1:Nat), (0:Nat), (some (400:ℚ) : Val), (some (200:ℚ) : Val))].all
      (fun e => decide (0 < e.1)) = true := by
  refine ⟨p4ex_eval, rfl, rfl, by norm_num, ?_, by decide⟩
  simp [vIsZero]

/-- C4 witness: the amended labeling rule applied to the concrete matrix
`p4ex`, row index 1 and its 400 cell. -/
theorem c4_witness :
    (stacked_plot p4ex 10 = .ok [(1, 0, some 400, some 200)] ∧
      (selectCols p4ex (visibleIdx p4ex 10)).rows.get? 1 = some ("r2", [some 400])) ∧
    ((∃ y, ((1:Nat), (0:Nat), (some (400:ℚ) : Val), y)
        ∈ [((1:Nat), (0:Nat), (some (400:ℚ) : Val), (some (200:ℚ) : Val))]) ↔
      (("r2", [some (400:ℚ)]) : String × List Val).2.get? 0 = some (some 400) ∧
        vIsZero (some 400) = false ∧
        (show_all ((selectCols p4ex (visibleIdx p4ex 10)).rows.map Prod.snd).flatten 10 = true
          ∨ vGt (some 400) 10 = true)) :=
  ⟨⟨p4ex_eval, p4ex_row1⟩,
    c4_label_policy p4ex 10 [(1, 0, some 400, some 200)] p4ex_eval
      1 0 ("r2", [some 400]) (some 400) p4ex_row1⟩

/-- C6 (amended): for every matrix with at least one visible column and at
least one row — including percentage-share matrices with NaN rows — the
renderer does not raise, and no NaN or zero value reaches a label; when no
column is visible (e.g. an all-NaN matrix), the `pivot.plot` call raises
instead of rendering an empty chart. -/
theorem c6_renderer_safety (p : Pivot) (t : ℚ)
    (hvis : visibleIdx p t ≠ []) (hrows : p.rows ≠ []) :
    ∃ out, stacked_plot p t = .ok out ∧
      ∀ e ∈ out, e.2.2.1.isSome = true ∧ vIsZero e.2.2.1 = false := by
  have hguard : ((selectCols p (visibleIdx p t)).cols.isEmpty
      || (selectCols p (visibleIdx p t)).rows.isEmpty) = false := by
    simp [selectCols, List.isEmpty_iff, List.map_eq_nil_iff, hvis, hrows]
  refine ⟨allLabels t
      (show_all ((selectCols p (visibleIdx p t)).rows.map Prod.snd).flatten t)
      (selectCols p (visibleIdx p t)).rows 0, ?_, ?_⟩
  · unfold stacked_plot
    dsimp only
    rw [hguard]
    rfl
  · rintro ⟨i, j, val, y⟩ he
    have hmem : ∃ y', (i, j, val, y') ∈ allLabels t
        (show_all ((selectCols p (visibleIdx p t)).rows.map Prod.snd).flatten t)
        (selectCols p (visibleIdx p t)).rows 0 := ⟨y, he⟩
    rw [mem_allLabels] at hmem
    obtain ⟨-, r, hr, hseg⟩ := hmem
    rw [mem_segLabels] at hseg
    obtain ⟨-, hget, hz, hcond⟩ := hseg
    cases val with
    | some x => exact ⟨rfl, hz⟩
    | none =>
      exfalso
      rcases hcond with hsa | hgt
      · have hval_mem : (none : Val) ∈ r.2 := List.get?_mem hget
        have hrmem : r ∈ (selectCols p (visibleIdx p t)).rows := List.get?_mem hr
        have hcell : (none : Val)
            ∈ ((selectCols p (visibleIdx p t)).rows.map Prod.snd).flatten := by
          rw [List.mem_flatten]
          exact ⟨r.2, List.mem_map.2 ⟨r, hrmem, rfl⟩, hval_mem⟩
        unfold show_all at hsa
        cases hnp : npMax ((selectCols p (visibleIdx p t)).rows.map Prod.snd).flatten with
        | none => rw [hnp] at hsa; simp at hsa
        | some m =>
          have := npMax_some_isSome hnp (none : Val) hcell
          simp at this
      · simp [vGt] at hgt

/-- C6 counterexample: a one-row matrix whose single cell is NaN has no
visible column, and the renderer raises (pandas `DataFrame.plot` on a
frame with no numeric data) instead of rendering, contrary to the claim
that the renderer never raises. -/
theorem c6_counterexample :
    stacked_plot ⟨["A"], [("r", [none])]⟩ 10 = .error "no numeric data to plot" := by
  have hvis : visibleIdx ⟨["A"], [("r", [none])]⟩ 10 = [] := by
    norm_num [visibleIdx, all_below, col_total, List.range_succ, List.filter_cons,
      List.filterMap_cons, List.getD]
  unfold stacked_plot
  rw [hvis]
  rfl

/-- The concrete matrix used for the C6 witness: a NaN row above a normal
row, both columns visible. -/
def p6ex : Pivot := ⟨["A", "B"], [("nanrow", [none, none]), ("r1", [some 5, some 6])]⟩

/-- C6 witness: the amended safety theorem applied to `p6ex` at threshold 2. -/
theorem c6_witness :
    (visibleIdx p6ex 2 ≠ [] ∧ p6ex.rows ≠ []) ∧
    (∃ out, stacked_plot p6ex 2 = .ok out ∧
      ∀ e ∈ out, e.2.2.1.isSome = true ∧ vIsZero e.2.2.1 = false) := by
  have hvis : visibleIdx p6ex 2 = [0, 1] := by
    show visibleIdx ⟨["A", "B"], [("nanrow", [none, none]), ("r1", [some 5, some 6])]⟩ 2 = [0, 1]
    norm_num [visibleIdx, all_below, col_total, List.range_succ, List.filter_cons,
      List.filterMap_cons, List.getD]
  have hv : visibleIdx p6ex 2 ≠ [] := by rw [hvis]; simp
  have hr : p6ex.rows ≠ [] := by simp [p6ex]
  exact ⟨⟨hv, hr⟩, c6_renderer_safety p6ex 2 hv hr⟩

/-! ### Aggregation (groupby / pivot / fillna in `run_plot_01_02`,
`run_plot_03_04`, `run_plot_05_06`) -/

/-- Python `str` comparison: lexicographic by code point. -/
def charsLt : List Char → List Char → Bool
  | [], [] => false
  | [], _ :: _ => true
  | _ :: _, [] => false
  | a :: as, b :: bs => if a < b then true else if b < a then false else charsLt as bs

/-- Non-strict string order used by `sorted` and pandas key sorting. -/
def pyStrLe (a b : String) : Bool := !(charsLt b.data a.data)

/-- pandas group keys / pivot axes: the distinct values, sorted. -/
def uniqueSorted (l : List String) : List String := sortList pyStrLe l.dedup

theorem orderedInsert_perm (le : α → α → Bool) (a : α) (l : List α) :
    (orderedInsert le a l).Perm (a :: l) := by
  induction l with
  | nil => exact List.Perm.refl _
  | cons b l ih =>
    unfold orderedInsert
    split
    · exact List.Perm.refl _
    · exact (List.Perm.cons b ih).trans (List.Perm.swap a b l)

theorem sortList_perm (le : α → α → Bool) (l : List α) : (sortList le l).Perm l := by
  induction l with
  | nil => exact List.Perm.refl _
  | cons a l ih => exact (orderedInsert_perm le a _).trans (List.Perm.cons a ih)

theorem uniqueSorted_nodup (l : List String) : (uniqueSorted l).Nodup :=
  (sortList_perm pyStrLe l.dedup).nodup_iff.2 (List.nodup_dedup l)

theorem mem_uniqueSorted {x : String} {l : List String} (h : x ∈ l) :
    x ∈ uniqueSorted l :=
  (sortList_perm pyStrLe l.dedup).mem_iff.2 (List.mem_dedup.2 h)

/-- One normalized record (the columns of `JP_cleaned_*_by_hs10.csv`,
produced by `jp_full_hs10_plot_script.py`). -/
structure TradeRec where
  qtr : String
  period : String
  country : String
  hs10 : String
  us_group : Option String
  nato_class : Option String
  mtow : Option String
  quanity : ℚ
  k_jpy : ℚ
  is_reexport : Bool

/-- One cell of `subset.groupby([timeKey, "country"])[measure].sum()` after
`pivot(...).fillna(0)`: the sum of the measure over the matching records,
0 when none match. -/
def cell (rs : List TradeRec) (tk : TradeRec → String) (meas : TradeRec → ℚ)
    (r c : String) : ℚ :=
  ((rs.filter (fun x => tk x == r && x.country == c)).map meas).sum

/-- The pivot row axis: distinct time-bucket values, sorted (pandas). -/
def rowKeys (rs : List TradeRec) (tk : TradeRec → String) : List String :=
  uniqueSorted (rs.map tk)

/-- The pivot column axis: distinct country values, sorted (pandas). -/
def colKeys (rs : List TradeRec) : List String :=
  uniqueSorted (rs.map (fun x => x.country))

/-- `subset.groupby([timeKey, "country"])[measure].sum().reset_index()
.pivot(index=timeKey, columns="country", values=measure).fillna(0)`:
a dense matrix with an explicit cell for every (bucket, country) pair. -/
def buildPivot (rs : List TradeRec) (tk : TradeRec → String) (meas : TradeRec → ℚ) :
    Pivot :=
  { cols := colKeys rs,
    rows := (rowKeys rs tk).map
      (fun r => (r, (colKeys rs).map (fun c => some (cell rs tk meas r c)))) }

theorem sum_map_ite_zero {β : Type} [BEq β] [LawfulBEq β] (v : ℚ) :
    ∀ (cs : List β) (a : β), a ∉ cs →
      (cs.map (fun c => if a == c then v else 0)).sum = 0 := by
  intro cs
  induction cs with
  | nil => simp
  | cons b cs ih =>
    intro a ha
    rw [List.map_cons, List.sum_cons]
    have hab : (a == b) = false := by
      have hne : a ≠ b := fun h => ha (h ▸ List.mem_cons_self _ _)
      simpa using hne
    rw [hab, if_neg (by simp), ih a (fun h => ha (List.mem_cons_of_mem _ h))]
    simp

theorem sum_map_ite_eq {β : Type} [BEq β] [LawfulBEq β] (v : ℚ) :
    ∀ (cs : List β) (a : β), cs.Nodup → a ∈ cs →
      (cs.map (fun c => if a == c then v else 0)).sum = v := by
  intro cs
  induction cs with
  | nil =>
    intro a _ ha
    simp at ha
  | cons b cs ih =>
    intro a hnd ha
    rw [List.map_cons, List.sum_cons]
    by_cases hab : a = b
    · subst hab
      rw [show (a == a) = true from by simp, if_pos rfl,
        sum_map_ite_zero v cs a (List.nodup_cons.1 hnd).1]
      simp
    · rw [show (a == b) = false from by simpa using hab, if_neg (by simp),
        ih a (List.nodup_cons.1 hnd).2
          (by rcases List.mem_cons.1 ha with h | h
              · exact absurd h hab
              · exact h)]
      simp

theorem sum_over_cols {α β : Type} [BEq β] [LawfulBEq β]
    (f : α → ℚ) (q : α → Bool) (key : α → β) :
    ∀ (rs : List α) (cs : List β), cs.Nodup →
      (∀ x ∈ rs, q x = true → key x ∈ cs) →
      (cs.map (fun c => ((rs.filter (fun x => q x && (key x == c))).map f).sum)).sum
        = ((rs.filter q).map f).sum := by
  intro rs
  induction rs with
  | nil =>
    intro cs _ _
    simp
  | cons x rs ih =>
    intro cs hnd hcov
    have hsplit : ∀ c : β,
        ((List.filter (fun z => q z && (key z == c)) (x :: rs)).map f).sum
          = (if (q x && (key x == c)) = true then f x else 0)
            + ((rs.filter (fun z => q z && (key z == c))).map f).sum := by
      intro c
      rw [List.filter_cons]
      by_cases hcond : (q x && (key x == c)) = true
      · rw [if_pos hcond, if_pos hcond, List.map_cons, List.sum_cons]
      · rw [if_neg hcond, if_neg hcond, zero_add]
    simp only [hsplit]
    rw [List.sum_map_add,
      ih cs hnd (fun z hz hq => hcov z (List.mem_cons_of_mem _ hz) hq)]
    rcases Bool.eq_false_or_eq_true (q x) with hq | hq
    · have hkey : key x ∈ cs := hcov x (List.mem_cons_self _ _) hq
      have hone : (cs.map (fun c => if (q x && (key x == c)) = true then f x else 0)).sum
          = f x := by
        have he : ∀ c : β, (if (q x && (key x == c)) = true then f x else 0)
            = (if key x == c then f x else 0) := by
          intro c
          rw [hq, Bool.true_and]
        simp only [he]
        exact sum_map_ite_eq (f x) cs (key x) hnd hkey
      rw [hone, List.filter_cons, if_pos hq, List.map_cons, List.sum_cons]
    · have hzero : (cs.map (fun c => if (q x && (key x == c)) = true then f x else 0)).sum
          = 0 := by
        have he : ∀ c : β, (if (q x && (key x == c)) = true then f x else 0) = 0 := by
          intro c
          rw [hq, Bool.false_and]
          simp
        simp only [he]
        simp
      rw [hzero, zero_add, List.filter_cons, if_neg (by simp [hq])]

theorem lookup_map_pair (g : String → List Val) :
    ∀ (l : List String) (r : String), r ∈ l →
      (l.map (fun s => (s, g s))).lookup r = some (g r) := by
  intro l
  induction l with
  | nil =>
    intro r hr
    simp at hr
  | cons a l ih =>
    intro r hr
    rw [List.map_cons]
    by_cases hra : r = a
    · subst hra
      simp [List.lookup]
    · have hbeq : (r == a) = false := by simpa using hra
      simp only [List.lookup, hbeq]
      refine ih r ?_
      rcases List.mem_cons.1 hr with h | h
      · exact absurd h hra
      · exact h

/-- C1: in the matrix built by grouping on (time bucket, country), pivoting
and zero-filling, every row sums across its columns to the total of the
measure over all records of that time bucket (no record double-counted or
dropped); the built pivot has an explicit cell for every (bucket, country)
pair, and a combination with no matching records is an explicit 0. -/
theorem c1_row_sum (rs : List TradeRec) (tk : TradeRec → String) (meas : TradeRec → ℚ)
    (r : String) (hr : r ∈ rowKeys rs tk) :
    ((colKeys rs).map (fun c => cell rs tk meas r c)).sum
        = ((rs.filter (fun x => tk x == r)).map meas).sum
    ∧ (buildPivot rs tk meas).rows.lookup r
        = some ((colKeys rs).map (fun c => some (cell rs tk meas r c)))
    ∧ (∀ c : String, rs.filter (fun x => tk x == r && x.country == c) = [] →
        cell rs tk meas r c = 0) := by
  refine ⟨?_, ?_, ?_⟩
  · have hnd : (colKeys rs).Nodup := uniqueSorted_nodup _
    have hcov : ∀ x ∈ rs, (tk x == r) = true → x.country ∈ colKeys rs := by
      intro x hx _
      exact mem_uniqueSorted (List.mem_map.2 ⟨x, hx, rfl⟩)
    exact sum_over_cols meas (fun x => tk x == r) (fun x => x.country) rs
      (colKeys rs) hnd hcov
  · unfold buildPivot
    exact lookup_map_pair _ (rowKeys rs tk) r hr
  · intro c hc
    unfold cell
    rw [hc]
    simp

/-- The concrete record list (two countries in one quarter) used for the C1
witness. -/
def exRecs : List TradeRec :=
  [⟨"2024 Q1", "2024 H1", "Vietnam", "8806.21.00.00", some "Group 1",
      some "Class I", some "250g-7kg", 3, 30, false⟩,
   ⟨"2024 Q1", "2024 H1", "India", "8806.22.00.00", some "Group 1",
      some "Class I", some "250g-7kg", 4, 40, false⟩]

/-- C1 witness: the row-sum theorem applied to `exRecs` at the quarter
bucket `"2024 Q1"`. -/
theorem c1_witness :
    ("2024 Q1" ∈ rowKeys exRecs (fun x => x.qtr)) ∧
    ((colKeys exRecs).map
        (fun c => cell exRecs (fun x => x.qtr) (fun x => x.quanity) "2024 Q1" c)).sum
      = ((exRecs.filter (fun x => x.qtr == "2024 Q1")).map (fun x => x.quanity)).sum :=
  ⟨by decide,
    (c1_row_sum exRecs (fun x => x.qtr) (fun x => x.quanity) "2024 Q1" (by decide)).1⟩

/-! ### Percentage-share matrix (`pivot.div(pivot.sum(axis=1), axis=0) * 100`) -/

/-- One row of the percentage-share matrix: each cell divided by the row
total (pandas row sums skip NaN) times 100. A zero row total makes every
cell of the row undefined (NaN, modelled `none`); a NaN cell stays NaN. -/
def pctRow (vs : List Val) : List Val :=
  let s := (vs.filterMap id).sum
  vs.map (fun v => v.bind (fun x => if s = 0 then none else some (x / s * 100)))

/-- The percentage-share matrix derived from a matrix. -/
def pctPivot (p : Pivot) : Pivot :=
  { cols := p.cols, rows := p.rows.map (fun r => (r.1, pctRow r.2)) }

/-- C7: for every matrix row with no NaN cells and nonzero row total, the
corresponding percentage-share row consists of the cells divided by the
row total times 100, and sums across columns to exactly 100 in exact
arithmetic. -/
theorem c7_pct_row_sum (p : Pivot) (i : Nat) (lbl : String) (vs : List ℚ)
    (hrow : p.rows.get? i = some (lbl, vs.map some))
    (hs : vs.sum ≠ 0) :
    (pctPivot p).rows.get? i = some (lbl, pctRow (vs.map some)) ∧
    pctRow (vs.map some) = vs.map (fun x => some (x / vs.sum * 100)) ∧
    ((pctRow (vs.map some)).filterMap id).sum = 100 := by
  have hfm : (vs.map some).filterMap id = vs := by
    rw [List.filterMap_map]
    simp
  have hrw : pctRow (vs.map some) = vs.map (fun x => some (x / vs.sum * 100)) := by
    unfold pctRow
    dsimp only
    rw [hfm, List.map_map]
    apply List.map_congr_left
    intro x _
    show (if vs.sum = 0 then none else some (x / vs.sum * 100)) = _
    rw [if_neg hs]
  refine ⟨?_, hrw, ?_⟩
  · unfold pctPivot
    dsimp only
    rw [List.get?_map, hrow]
    rfl
  · rw [hrw, List.filterMap_map]
    rw [show ((id : Option ℚ → Option ℚ) ∘ fun x : ℚ => some (x / vs.sum * 100))
        = some ∘ (fun x : ℚ => x / vs.sum * 100) from rfl]
    rw [List.filterMap_eq_map]
    have he : ∀ x : ℚ, x / vs.sum * 100 = x * (100 / vs.sum) := fun x => by ring
    simp only [he]
    rw [List.sum_map_mul_right]
    have hmapid : (vs.map fun b => b) = vs := by simp
    rw [hmapid]
    field_simp

/-- The one-row matrix used for the C7 witness. -/
def p7ex : Pivot := ⟨["A", "B"], [("r", [some 1, some 3])]⟩

/-- C7 witness: the percentage-row theorem applied to `p7ex` (cells 1 and 3,
shares 25% and 75%). -/
theorem c7_witness :
    (p7ex.rows.get? 0 = some ("r", [(1:ℚ), 3].map some)
      ∧ ([(1:ℚ), 3]).sum ≠ 0) ∧
    ((pctRow ([(1:ℚ), 3].map some)).filterMap id).sum = 100 :=
  ⟨⟨rfl, by norm_num⟩,
    (c7_pct_row_sum p7ex 0 "r" [1, 3] rfl (by norm_num)).2.2⟩

/-! ### Run-wide country colors (`country_color_map`, identical in both
plot scripts) -/

/-- Embedding of
`{c: cmap(i % cmap.N) for i, c in enumerate(all_countries)}` with
`all_countries = sorted(df["country"].dropna().unique())` and
`cmap = plt.get_cmap("tab20")` (`cmap.N = 20`): an association list from
country name to palette index. -/
def country_color_map (countries : List String) : List (String × Nat) :=
  (uniqueSorted countries).enum.map (fun ic => (ic.2, ic.1 % 20))

/-- The renderer's per-chart color list:
`[country_color_map.get(c, "#CCCCCC") for c in pivot.columns]`; `none`
models the gray fallback. -/
def colorsOf (cm : List (String × Nat)) (cols : List String) : List (Option Nat) :=
  cols.map (fun c => cm.lookup c)

theorem lookup_enumFrom (f : Nat → Nat) :
    ∀ (l : List String) (n : Nat) (c : String), c ∈ l →
      ((l.enumFrom n).map (fun ic => (ic.2, f ic.1))).lookup c
        = some (f (n + l.indexOf c)) := by
  intro l
  induction l with
  | nil =>
    intro n c hc
    simp at hc
  | cons a l ih =>
    intro n c hc
    rw [List.enumFrom, List.map_cons]
    by_cases hca : c = a
    · subst hca
      simp [List.lookup, List.indexOf_cons_self]
    · have hbeq : (c == a) = false := by simpa using hca
      simp only [List.lookup, hbeq]
      have hcl : c ∈ l := by
        rcases List.mem_cons.1 hc with h | h
        · exact absurd h hca
        · exact h
      rw [ih (n + 1) c hcl]
      have hidx : (a :: l).indexOf c = l.indexOf c + 1 := by
        unfold List.indexOf
        rw [List.findIdx_cons]
        simp [show (a == c) = false from by simpa using fun h => hca h.symm]
      rw [hidx]
      have harg : n + 1 + l.indexOf c = n + (l.indexOf c + 1) := by omega
      rw [harg]

/-- C9: the run-wide color map assigns each country the palette color at
index (rank mod 20), where rank is its position in the single sorted
deduplicated list of all country names; and the renderer's color for a
country is the same whichever matrix (column list) it appears in. -/
theorem c9_color_stability (countries : List String) (c : String)
    (hc : c ∈ uniqueSorted countries) :
    (country_color_map countries).lookup c
        = some ((uniqueSorted countries).indexOf c % 20) ∧
    ∀ (cols₁ cols₂ : List String) (i₁ i₂ : Nat),
      cols₁.get? i₁ = some c → cols₂.get? i₂ = some c →
      (colorsOf (country_color_map countries) cols₁).get? i₁
        = (colorsOf (country_color_map countries) cols₂).get? i₂ := by
  constructor
  · unfold country_color_map
    have h := lookup_enumFrom (fun i => i % 20) (uniqueSorted countries) 0 c hc
    simpa [List.enum] using h
  · intro cols₁ cols₂ i₁ i₂ h₁ h₂
    unfold colorsOf
    rw [List.get?_map, List.get?_map, h₁, h₂]

/-- C9 witness: the color theorem applied to a concrete country column with
a duplicate; "Vietnam" ranks 1 in the sorted deduplicated list. -/
theorem c9_witness :
    ("Vietnam" ∈ uniqueSorted ["Vietnam", "India", "Vietnam"]) ∧
    (country_color_map ["Vietnam", "India", "Vietnam"]).lookup "Vietnam"
      = some ((uniqueSorted ["Vietnam", "India", "Vietnam"]).indexOf "Vietnam" % 20) :=
  ⟨by decide, (c9_color_stability ["Vietnam", "India", "Vietnam"] "Vietnam" (by decide)).1⟩

/-! ### The All / Exclude_re-export subsets -/

/-- Embedding of `df["is_reexport"] = False`
(jp_full_hs10_plot_script.py line 166): Japan's source has no re-export
concept, so normalization sets the flag to the constant `False`. -/
def setReexportFalse (r : TradeRec) : TradeRec := { r with is_reexport := false }

/-- The `"All"` subset: the whole frame. -/
def subsetAll (rs : List TradeRec) : List TradeRec := rs

/-- The `"Exclude_re-export"` subset: `df[~df["is_reexport"]]`. -/
def subsetExcludeReexport (rs : List TradeRec) : List TradeRec :=
  rs.filter (fun r => !r.is_reexport)

/-- C10: on normalized records (where `is_reexport` is constantly false)
the `"All"` and `"Exclude_re-export"` subsets contain exactly the same
records, so for every time key and measure the two aggregation matrices
are equal cell-for-cell and the renderer output is identical for every
threshold — the paired artifacts can differ only in filename and title. -/
theorem c10_reexport_equivalence (rows : List TradeRec) :
    subsetExcludeReexport (rows.map setReexportFalse)
        = subsetAll (rows.map setReexportFalse) ∧
    ∀ (tk : TradeRec → String) (meas : TradeRec → ℚ),
      buildPivot (subsetExcludeReexport (rows.map setReexportFalse)) tk meas
        = buildPivot (subsetAll (rows.map setReexportFalse)) tk meas ∧
      ∀ t : ℚ,
        stacked_plot (buildPivot (subsetExcludeReexport (rows.map setReexportFalse)) tk meas) t
          = stacked_plot (buildPivot (subsetAll (rows.map setReexportFalse)) tk meas) t := by
  have h : subsetExcludeReexport (rows.map setReexportFalse) = rows.map setReexportFalse := by
    unfold subsetExcludeReexport
    rw [List.filter_eq_self]
    intro a ha
    rcases List.mem_map.1 ha with ⟨b, _, rfl⟩
    simp [setReexportFalse]
  exact ⟨h, fun tk meas => ⟨by rw [h]; rfl, fun t => by rw [h]; rfl⟩⟩
